import Mathlib

/-!
Verification of the hierarchical ordering / reparenting engine of the
Todo-list repository, against its natural-language specification.

The embedding models, per user, the Firestore `items` and `lists`
subcollections as Lean lists of documents (Firestore queries preserve a
deterministic document order; the claims proved here never depend on the
tie-breaking order).  A Firestore `writeBatch` is modelled as a list of
writes applied atomically and in order; `batch.update` on a document that
does not exist fails the whole batch, in which case the store is left
unchanged.  All operations are translated from `src/services/items.ts`,
`src/services/lists.ts` and `src/hooks/useLists.ts`.
-/

namespace Todo

/-- A task document (`Item` in `src/types`). `order` is a JS number used as
an integer rank; `path` is the materialized ancestor chain, root first,
excluding self. -/
structure Item where
  id : String
  title : String
  completed : Bool
  collapsed : Bool
  listId : String
  parentId : Option String
  path : List String
  order : Int
  clientId : Option String
deriving DecidableEq, Repr

/-- A list document (`List` in `src/types`). -/
structure ListDoc where
  id : String
  title : String
  order : Int
  clientId : Option String
deriving DecidableEq, Repr

/-- A partial update as passed to `batch.update`: only fields that are
present change.  These are the only fields the service layer ever patches. -/
structure Patch where
  listId : Option String := none
  parentId : Option (Option String) := none
  path : Option (List String) := none
  order : Option Int := none
deriving DecidableEq, Repr

/-- Apply a partial update to a document (document id never changes). -/
def applyPatch (p : Patch) (it : Item) : Item :=
  { it with
    listId := p.listId.getD it.listId
    parentId := p.parentId.getD it.parentId
    path := p.path.getD it.path
    order := p.order.getD it.order }

/-- One write of a Firestore batch on the items collection. -/
inductive Write where
  | del (id : String)
  | upd (id : String) (p : Patch)
deriving DecidableEq, Repr

/-- Apply one write.  `delete` is idempotent; `update` on a missing
document makes the batch fail, hence `Option`. -/
def applyWrite (s : List Item) (w : Write) : Option (List Item) :=
  match w with
  | .del i => some (s.filter (fun it => it.id != i))
  | .upd i p =>
      if s.any (fun it => it.id == i) then
        some (s.map (fun it => if it.id == i then applyPatch p it else it))
      else none

/-- Apply the writes of a batch in order; `none` when some write fails. -/
def applyWrites (s : List Item) : List Write → Option (List Item)
  | [] => some s
  | w :: ws => (applyWrite s w).bind (fun s2 => applyWrites s2 ws)

/-- Commit a batch: writes apply atomically and in order (a later write to
the same document wins); a failed batch performs no writes at all. -/
def commit (s : List Item) (ws : List Write) : List Item :=
  match applyWrites s ws with
  | some s2 => s2
  | none => s

/-- `getDoc` on the items collection. -/
def getDocById (s : List Item) (i : String) : Option Item :=
  s.find? (fun it => it.id == i)

/-- The query `where listId == l, where parentId == p` (a sibling group). -/
def siblingsOf (s : List Item) (listId : String) (parentId : Option String) : List Item :=
  s.filter (fun it => it.listId == listId && it.parentId == parentId)

/-- JS `arr.sort((a, b) => a.order - b.order)`: stable sort by rank
(insertion sort is stable, like the JS engine sort). -/
def sortByOrder (l : List Item) : List Item :=
  l.insertionSort (fun a b => a.order ≤ b.order)

/-- `createRootItem` (items.ts:40): append a parentless task whose order is
the current size of the root sibling group of the list.  `newId` stands for
the store-generated document id. -/
def createRootItem (s : List Item) (listId title : String) (clientId : Option String)
    (newId : String) : List Item × String :=
  let nextOrder : Int := (siblingsOf s listId none).length
  (s ++ [{ id := newId, title := title, completed := false, collapsed := false,
           listId := listId, parentId := none, path := [], order := nextOrder,
           clientId := clientId }], newId)

/-- `createChildItem` (items.ts:69): fetch the parent, reject (returning
`none`, no write) when it is missing or the child depth
`parent.path.length + 2` would exceed `maxDepth`; otherwise append the
child with inherited `listId`, `path = parent.path ++ [parent.id]` and
order = current size of the parent's child group. -/
def createChildItem (s : List Item) (parentId title : String) (clientId : Option String)
    (newId : String) (maxDepth : Nat := 4) : List Item × Option String :=
  match getDocById s parentId with
  | none => (s, none)
  | some parent =>
    if parent.path.length + 2 > maxDepth then (s, none)
    else
      let nextOrder : Int := (siblingsOf s parent.listId (some parent.id)).length
      (s ++ [{ id := newId, title := title, completed := false, collapsed := false,
               listId := parent.listId, parentId := some parent.id,
               path := parent.path ++ [parent.id], order := nextOrder,
               clientId := clientId }], some newId)

/-- `deleteItemSubtree` (items.ts:141): batch-delete the root and every
item whose `path` contains it, then reindex the root's former sibling
group (root excluded) by current order. -/
def deleteItemSubtree (s : List Item) (itemId : String) : List Item :=
  match getDocById s itemId with
  | none => s
  | some root =>
    let descWrites := (s.filter (fun it => it.path.contains itemId)).map
      (fun d => Write.del d.id)
    let sibs := sortByOrder
      ((siblingsOf s root.listId root.parentId).filter (fun d => d.id != root.id))
    let sibWrites := sibs.enum.map
      (fun pr => Write.upd pr.2.id { order := some (pr.1 : Int) })
    commit s (descWrites ++ [Write.del root.id] ++ sibWrites)

/-- `reorderSiblings` (items.ts:175): set each listed id's order to its
index.  The `listId` and `parentId` arguments are accepted but unused, as
in the source. -/
def reorderSiblings (s : List Item) (listId : String) (parentId : Option String)
    (orderedIds : List String) : List Item :=
  commit s (orderedIds.enum.map (fun pr => Write.upd pr.2 { order := some (pr.1 : Int) }))

/-- `computeSubtreeHeight` (items.ts:297): 1 when the root has no
descendant in its list, else 1 + the longest path suffix after the root id
among the descendants. -/
def computeSubtreeHeight (s : List Item) (rootId listId : String) : Nat :=
  let desc := s.filter (fun it => it.listId == listId && it.path.contains rootId)
  if desc.isEmpty then 1
  else
    let maxSuffix := desc.foldl (fun m d =>
      let suffixLen := match d.path.findIdx? (fun e => e == rootId) with
        | some idx => d.path.length - (idx + 1)
        | none => 0
      max m suffixLen) 0
    1 + maxSuffix

/-- `reparentSubtree` (items.ts:199), translated write for write: guard
(self-parent, missing target parent, depth), then one batch that updates
the root, every descendant's `listId`/`path`, the target sibling group
(with the root spliced in at the clamped `insertIndex`), and finally the
source sibling group as read before the move. -/
def reparentSubtree (s : List Item) (itemId targetListId : String)
    (targetParentId : Option String) (insertIndex : Option Int)
    (maxDepth : Nat := 4) : List Item :=
  match getDocById s itemId with
  | none => s
  | some root =>
    let rejected : Bool :=
      match targetParentId with
      | none => false
      | some tp =>
        if tp == root.id then true
        else
          match getDocById s tp with
          | none => true
          | some targetParent =>
            let subtreeHeight := computeSubtreeHeight s root.id root.listId
            let newRootDepth := (targetParent.path.length + 1) + 1
            decide (maxDepth < newRootDepth + (subtreeHeight - 1))
    if rejected then s
    else
      let oldParentId := root.parentId
      let oldListId := root.listId
      let parentPath : List String :=
        match targetParentId with
        | some tp => (match getDocById s tp with | some p => p.path | none => []) ++ [tp]
        | none => []
      let targetSibs := sortByOrder
        ((siblingsOf s targetListId targetParentId).filter (fun d => d.id != root.id))
      let targetIndex : Nat :=
        match insertIndex with
        | none => targetSibs.length
        | some i => (min (max i 0) (targetSibs.length : Int)).toNat
      let rootWrite := Write.upd root.id
        { listId := some targetListId, parentId := some targetParentId,
          path := some parentPath, order := some (targetIndex : Int) }
      let newPref := parentPath ++ [root.id]
      let descWrites := (s.filter (fun it => it.path.contains root.id)).map (fun d =>
        let sfx := match d.path.findIdx? (fun e => e == root.id) with
          | some idx => d.path.drop (idx + 1)
          | none => []
        Write.upd d.id { listId := some targetListId, path := some (newPref ++ sfx) })
      let withInserted := targetSibs.take targetIndex
        ++ [{ root with order := (targetIndex : Int) }] ++ targetSibs.drop targetIndex
      let insWrites := withInserted.enum.map
        (fun pr => Write.upd pr.2.id { order := some (pr.1 : Int) })
      let oldSibs := sortByOrder (siblingsOf s oldListId oldParentId)
      let oldWrites := oldSibs.enum.map
        (fun pr => Write.upd pr.2.id { order := some (pr.1 : Int) })
      commit s ([rootWrite] ++ descWrites ++ insWrites ++ oldWrites)

/-- `createList` (lists.ts:14): insert a list document with the given rank. -/
def createList (ls : List ListDoc) (title : String) (order : Int)
    (clientId : Option String) (newId : String) : List ListDoc :=
  ls ++ [{ id := newId, title := title, order := order, clientId := clientId }]

/-- The rank chosen by `useLists.createList` (useLists.ts:40):
`lists.length > 0 ? Math.max(...lists.map(l => l.order)) + 1 : 0`. -/
def useLists_createOrder (ls : List ListDoc) : Int :=
  match (ls.map (fun l => l.order)).max? with
  | some m => m + 1
  | none => 0

/-- The hook-level list creation: service `createList` called with the
rank computed from the currently loaded lists. -/
def useLists_createList (ls : List ListDoc) (title : String)
    (clientId : Option String) (newId : String) : List ListDoc :=
  createList ls title (useLists_createOrder ls) clientId newId

/-- `deleteList` (lists.ts:24): one batch deleting the list document and
every item whose `listId` matches. -/
def deleteList (lists : List ListDoc) (items : List Item) (listId : String) :
    List ListDoc × List Item :=
  (lists.filter (fun l => l.id != listId),
   commit items ((items.filter (fun it => it.listId == listId)).map
     (fun d => Write.del d.id)))

/-- The ranks of a sibling group. -/
def groupOrders (s : List Item) (listId : String) (parentId : Option String) : List Int :=
  (siblingsOf s listId parentId).map (fun it => it.order)

/-- The list of integers 0, ..., n-1. -/
def natsTo (n : Nat) : List Int :=
  (List.range n).map (fun k : Nat => (k : Int))

/-- Density invariant for one sibling group: the multiset of ranks is
exactly 0, ..., n-1 for n the group size. -/
def DenseGroup (s : List Item) (listId : String) (parentId : Option String) : Prop :=
  (groupOrders s listId parentId).Perm (natsTo (groupOrders s listId parentId).length)

/-- Density for every inhabited sibling group (empty groups are trivially
dense). -/
def AllDense (s : List Item) : Prop :=
  ∀ it ∈ s, DenseGroup s it.listId it.parentId

/-- Path consistency: a task with an existing parent materializes the
parent's chain plus the parent. -/
def PathConsistent (s : List Item) : Prop :=
  ∀ it ∈ s, ∀ p ∈ s, it.parentId = some p.id → it.path = p.path ++ [p.id]

/-- Tasks with no parent have an empty ancestor chain. -/
def RootsEmptyPath (s : List Item) : Prop :=
  ∀ it ∈ s, it.parentId = none → it.path = []

/-- Acyclicity: no task lies on its own ancestor chain. -/
def Acyclic (s : List Item) : Prop :=
  ∀ it ∈ s, it.id ∉ it.path

/-- The structural data-model invariants of the spec (3): unique document
ids, acyclicity, empty path at the roots, existing parents, and path
consistency. -/
def Invariants (s : List Item) : Prop :=
  (s.map (fun it => it.id)).Nodup ∧
  Acyclic s ∧
  RootsEmptyPath s ∧
  (∀ it ∈ s, it.parentId = none ∨ ∃ p ∈ s, it.parentId = some p.id) ∧
  PathConsistent s

instance (s : List Item) (listId : String) (parentId : Option String) :
    Decidable (DenseGroup s listId parentId) := by
  unfold DenseGroup; infer_instance

instance (s : List Item) : Decidable (AllDense s) := by
  unfold AllDense; infer_instance

instance (s : List Item) : Decidable (PathConsistent s) := by
  unfold PathConsistent; infer_instance

instance (s : List Item) : Decidable (RootsEmptyPath s) := by
  unfold RootsEmptyPath; infer_instance

instance (s : List Item) : Decidable (Acyclic s) := by
  unfold Acyclic; infer_instance

instance (s : List Item) : Decidable (Invariants s) := by
  unfold Invariants; infer_instance

/-! ### Helpers for reasoning about batches -/

/-- The document ids of a store, in store order. -/
def idsOf (s : List Item) : List String := s.map (fun it => it.id)

/-- Effect of one `batch.update` on one document. -/
def updOne (u : String × Patch) (it : Item) : Item :=
  if it.id == u.1 then applyPatch u.2 it else it

/-- Net effect of a list of updates, applied in order, on one document. -/
def patchAll (it : Item) (upds : List (String × Patch)) : Item :=
  upds.foldl (fun a u => updOne u a) it

/-- Net effect of a list of updates, applied in order, on the store. -/
def applyUpds (s : List Item) (upds : List (String × Patch)) : List Item :=
  upds.foldl (fun acc u => acc.map (updOne u)) s

/-! ### Concrete stores used by witnesses -/

/-- A parent task with two existing children in list "W". -/
def itemPar : Item :=
  { id := "par", title := "Par", completed := false, collapsed := false,
    listId := "W", parentId := none, path := [], order := 0, clientId := none }

def itemKid1 : Item :=
  { id := "k1", title := "K1", completed := false, collapsed := false,
    listId := "W", parentId := some "par", path := ["par"], order := 0, clientId := none }

def itemKid2 : Item :=
  { id := "k2", title := "K2", completed := false, collapsed := false,
    listId := "W", parentId := some "par", path := ["par"], order := 1, clientId := none }

def storeParent2 : List Item := [itemPar, itemKid1, itemKid2]

/-- Two list documents; list "LX" owns five tasks, list "LY" owns two. -/
def listLX : ListDoc := { id := "LX", title := "Work", order := 0, clientId := none }

def listLY : ListDoc := { id := "LY", title := "Home", order := 1, clientId := none }

def itemsCascade : List Item :=
  [{ id := "t1", title := "T1", completed := false, collapsed := false,
     listId := "LX", parentId := none, path := [], order := 0, clientId := none },
   { id := "t2", title := "T2", completed := false, collapsed := false,
     listId := "LX", parentId := none, path := [], order := 1, clientId := none },
   { id := "t3", title := "T3", completed := false, collapsed := false,
     listId := "LX", parentId := none, path := [], order := 2, clientId := none },
   { id := "t4", title := "T4", completed := false, collapsed := false,
     listId := "LX", parentId := some "t1", path := ["t1"], order := 0, clientId := none },
   { id := "t5", title := "T5", completed := false, collapsed := false,
     listId := "LX", parentId := some "t1", path := ["t1"], order := 1, clientId := none },
   { id := "u1", title := "U1", completed := false, collapsed := false,
     listId := "LY", parentId := none, path := [], order := 0, clientId := none },
   { id := "u2", title := "U2", completed := false, collapsed := false,
     listId := "LY", parentId := none, path := [], order := 1, clientId := none }]

/-- Scenario C store: four root tasks of list "S" at ranks 0..3, where the
one at rank 1 has a child. -/
def itemW1 : Item :=
  { id := "w1", title := "W1", completed := false, collapsed := false,
    listId := "S", parentId := none, path := [], order := 0, clientId := none }

def itemW2 : Item :=
  { id := "w2", title := "W2", completed := false, collapsed := false,
    listId := "S", parentId := none, path := [], order := 1, clientId := none }

def itemW2c : Item :=
  { id := "w2c", title := "W2c", completed := false, collapsed := false,
    listId := "S", parentId := some "w2", path := ["w2"], order := 0, clientId := none }

def itemW3 : Item :=
  { id := "w3", title := "W3", completed := false, collapsed := false,
    listId := "S", parentId := none, path := [], order := 2, clientId := none }

def itemW4 : Item :=
  { id := "w4", title := "W4", completed := false, collapsed := false,
    listId := "S", parentId := none, path := [], order := 3, clientId := none }

def storeDel : List Item := [itemW1, itemW2, itemW2c, itemW3, itemW4]

/-- Three list documents with dense but permuted ranks 1, 0, 2. -/
def listsDense : List ListDoc :=
  [{ id := "l1", title := "A", order := 1, clientId := none },
   { id := "l2", title := "B", order := 0, clientId := none },
   { id := "l3", title := "C", order := 2, clientId := none }]

/-! ### Concrete stores exhibiting the divergences of `reparentSubtree` -/

/-- A root task with one child, list "L". -/
def itemRootA : Item :=
  { id := "r", title := "R", completed := false, collapsed := false,
    listId := "L", parentId := none, path := [], order := 0, clientId := none }

def itemChildA : Item :=
  { id := "p", title := "P", completed := false, collapsed := false,
    listId := "L", parentId := some "r", path := ["r"], order := 0, clientId := none }

/-- Store for the cycle scenario: a parent and its only child. -/
def storeCycle : List Item := [itemRootA, itemChildA]

/-- Two root tasks of list "L1", at ranks 0 and 1; list "L2" is empty. -/
def itemA2 : Item :=
  { id := "a", title := "A", completed := false, collapsed := false,
    listId := "L1", parentId := none, path := [], order := 0, clientId := none }

def itemB2 : Item :=
  { id := "b", title := "B", completed := false, collapsed := false,
    listId := "L1", parentId := none, path := [], order := 1, clientId := none }

def storeTwoRoots : List Item := [itemA2, itemB2]

/-- A depth-3 chain x, y, p in list "L2" and a root r with one child c in
list "L1". -/
def itemX5 : Item :=
  { id := "x", title := "X", completed := false, collapsed := false,
    listId := "L2", parentId := none, path := [], order := 0, clientId := none }

def itemY5 : Item :=
  { id := "y", title := "Y", completed := false, collapsed := false,
    listId := "L2", parentId := some "x", path := ["x"], order := 0, clientId := none }

def itemP5 : Item :=
  { id := "p", title := "P", completed := false, collapsed := false,
    listId := "L2", parentId := some "y", path := ["x", "y"], order := 0, clientId := none }

def itemR5 : Item :=
  { id := "r", title := "R", completed := false, collapsed := false,
    listId := "L1", parentId := none, path := [], order := 0, clientId := none }

def itemC5 : Item :=
  { id := "c", title := "C", completed := false, collapsed := false,
    listId := "L1", parentId := some "r", path := ["r"], order := 0, clientId := none }

def storeDeep : List Item := [itemX5, itemY5, itemP5, itemR5, itemC5]

/-- A parent and its only child in list "M", plus an unrelated root task. -/
def itemRoot8 : Item :=
  { id := "r8", title := "R8", completed := false, collapsed := false,
    listId := "M", parentId := none, path := [], order := 0, clientId := none }

def itemChild8 : Item :=
  { id := "p8", title := "P8", completed := false, collapsed := false,
    listId := "M", parentId := some "r8", path := ["r8"], order := 0, clientId := none }

def itemOther8 : Item :=
  { id := "q8", title := "Q8", completed := false, collapsed := false,
    listId := "M", parentId := none, path := [], order := 1, clientId := none }

def storePath8 : List Item := [itemRoot8, itemChild8, itemOther8]

/-- C1: the claim says that when the target parent lies within the moved
task's own subtree (its `path` contains the moved id), `reparentSubtree`
performs no writes.  On `storeCycle` — which satisfies every data-model
invariant, and where the target parent "p" has the moved id "r" on its
path — the call commits its writes: the store changes and the result even
contains a task lying on its own ancestor chain.  The code only rejects
`targetParentId == root.id` and never consults the target parent's path,
contradicting its own "prevent cycles" comment. -/
theorem reparentSubtree_into_descendant_commits :
    (∃ tp ∈ storeCycle, tp.id = "p" ∧ "r" ∈ tp.path) ∧
    Invariants storeCycle ∧ AllDense storeCycle ∧
    reparentSubtree storeCycle "r" "L" (some "p") none 4 ≠ storeCycle ∧
    ¬ Acyclic (reparentSubtree storeCycle "r" "L" (some "p") none 4) := by
  decide

/-- C2: the claim says every sibling group is dense (orders exactly
0..n-1) after any successful mutation.  On `storeTwoRoots` — which
satisfies the invariants, all groups dense — moving task "b" to the empty
root group of list "L2" commits, yet leaves "b" with order 1 as the sole
member of that group: the final reindex of the source sibling group fails
to exclude the moved task (contradicting its own "remove root, compact
orders" comment) and overwrites the target rank. -/
theorem reparentSubtree_breaks_density :
    Invariants storeTwoRoots ∧ AllDense storeTwoRoots ∧
    reparentSubtree storeTwoRoots "b" "L2" none none 4 ≠ storeTwoRoots ∧
    ¬ DenseGroup (reparentSubtree storeTwoRoots "b" "L2" none none 4) "L2" none := by
  decide

/-- C5: the claim says a move is rejected (no writes) whenever
newDepth + (subtreeHeight - 1) > maxDepth with subtreeHeight = 1 + the
longest descendant chain.  On `storeDeep`, task "r" has a child, so its
spec subtree height is 2, and moving it under "p" (depth 3) gives
newDepth 4 and 4 + (2 - 1) = 5 > 4: the claim demands rejection.  But
`computeSubtreeHeight` returns 1 for this subtree (one less than its own
doc comment promises for a root with one level of children), the guard
passes, the move commits, and the child "c" ends at depth 5 > maxDepth. -/
theorem reparentSubtree_overdeep_commits :
    Invariants storeDeep ∧
    (∃ d ∈ storeDeep, d.parentId = some "r") ∧
    computeSubtreeHeight storeDeep "r" "L1" = 1 ∧
    (∀ it ∈ storeDeep, it.path.length + 1 ≤ 4) ∧
    reparentSubtree storeDeep "r" "L2" (some "p") none 4 ≠ storeDeep ∧
    (∃ it ∈ reparentSubtree storeDeep "r" "L2" (some "p") none 4,
      4 < it.path.length + 1) := by
  decide

/-- C8: the claim says path consistency is preserved by every committed
mutation.  On `storePath8` — invariant-satisfying, in particular path
consistent — reparenting "r8" under its own child "p8" commits (the
missing descendant-cycle check) and the resulting store is no longer path
consistent: "r8" ends with parent "p8" but path ["r8", "p8"] instead of
p8's new path plus ["p8"]. -/
theorem reparentSubtree_breaks_pathConsistency :
    Invariants storePath8 ∧ PathConsistent storePath8 ∧
    reparentSubtree storePath8 "r8" "M" (some "p8") none 4 ≠ storePath8 ∧
    ¬ PathConsistent (reparentSubtree storePath8 "r8" "M" (some "p8") none 4) := by
  decide

/-! ### Generic lemmas about batch commits -/

theorem applyPatch_id (p : Patch) (it : Item) : (applyPatch p it).id = it.id := rfl

theorem updOne_id (u : String × Patch) (it : Item) : (updOne u it).id = it.id := by
  unfold updOne; split <;> rfl

theorem idsOf_map_updOne (s : List Item) (u : String × Patch) :
    idsOf (s.map (updOne u)) = idsOf s := by
  unfold idsOf
  rw [List.map_map]
  exact List.map_congr_left (fun a _ => updOne_id u a)

theorem applyWrite_del (s : List Item) (i : String) :
    applyWrite s (.del i) = some (s.filter (fun it => it.id != i)) := rfl

theorem applyWrite_upd_of_mem (s : List Item) (u : String × Patch)
    (h : u.1 ∈ idsOf s) :
    applyWrite s (.upd u.1 u.2) = some (s.map (updOne u)) := by
  have hb : (s.any fun it => it.id == u.1) = true := by
    rw [List.any_eq_true]
    simp only [idsOf, List.mem_map] at h
    obtain ⟨it, hit, hid⟩ := h
    exact ⟨it, hit, by simp [hid]⟩
  show (if (s.any fun it => it.id == u.1) = true then
      some (s.map (fun it => if (it.id == u.1) = true then applyPatch u.2 it else it))
    else none) = some (s.map (updOne u))
  rw [if_pos hb]
  rfl

theorem applyWrites_append (ws1 ws2 : List Write) :
    ∀ s, applyWrites s (ws1 ++ ws2) =
      (applyWrites s ws1).bind (fun s2 => applyWrites s2 ws2) := by
  induction ws1 with
  | nil => intro s; rfl
  | cons w ws ih =>
    intro s
    show (applyWrite s w).bind _ = ((applyWrite s w).bind _).bind _
    cases applyWrite s w with
    | none => rfl
    | some s2 =>
      rw [Option.some_bind, Option.some_bind]
      exact ih s2

theorem applyWrites_dels (ids : List String) :
    ∀ s : List Item, applyWrites s (ids.map Write.del) =
      some (s.filter (fun it => !(ids.contains it.id))) := by
  induction ids with
  | nil =>
    intro s
    show some s = some (s.filter fun it => !(List.contains [] it.id))
    rw [show (fun (it : Item) => !(List.contains [] it.id)) = fun _ => true from rfl]
    rw [List.filter_true]
  | cons i rest ih =>
    intro s
    rw [List.map_cons]
    show ((applyWrite s (.del i)).bind fun s2 => applyWrites s2 (rest.map Write.del)) = _
    rw [applyWrite_del]
    rw [Option.some_bind]
    rw [ih]
    congr 1
    rw [List.filter_filter]
    apply List.filter_congr
    intro it _
    show ((!(List.contains rest it.id)) && (it.id != i)) = !(List.contains (i :: rest) it.id)
    rw [List.contains_cons, Bool.not_or, Bool.and_comm]
    rfl

theorem applyWrites_upds (upds : List (String × Patch)) :
    ∀ s : List Item, (∀ u ∈ upds, u.1 ∈ idsOf s) →
      applyWrites s (upds.map (fun u => Write.upd u.1 u.2)) = some (applyUpds s upds) := by
  induction upds with
  | nil => intro s _; rfl
  | cons u rest ih =>
    intro s h
    have hu : u.1 ∈ idsOf s := h u (List.mem_cons_self u rest)
    rw [List.map_cons]
    show ((applyWrite s (.upd u.1 u.2)).bind fun s2 =>
      applyWrites s2 (rest.map fun v => Write.upd v.1 v.2)) = _
    rw [applyWrite_upd_of_mem s u hu]
    rw [Option.some_bind]
    have hrest : ∀ v ∈ rest, v.1 ∈ idsOf (s.map (updOne u)) := by
      intro v hv
      rw [idsOf_map_updOne]
      exact h v (List.mem_cons_of_mem u hv)
    rw [ih (s.map (updOne u)) hrest]
    rfl

theorem applyUpds_eq_map (upds : List (String × Patch)) :
    ∀ s : List Item, applyUpds s upds = s.map (fun it => patchAll it upds) := by
  induction upds with
  | nil =>
    intro s
    show s = s.map (fun it => patchAll it [])
    rw [show (fun (it : Item) => patchAll it []) = fun it => it from rfl]
    rw [List.map_id']
  | cons u rest ih =>
    intro s
    show applyUpds (s.map (updOne u)) rest = _
    rw [ih, List.map_map]
    rfl

theorem patchAll_id (it : Item) (upds : List (String × Patch)) :
    (patchAll it upds).id = it.id := by
  induction upds generalizing it with
  | nil => rfl
  | cons u rest ih =>
    show (patchAll (updOne u it) rest).id = it.id
    rw [ih, updOne_id]

theorem patchAll_of_not_mem (it : Item) (upds : List (String × Patch))
    (h : it.id ∉ upds.map (fun u => u.1)) : patchAll it upds = it := by
  induction upds with
  | nil => rfl
  | cons u rest ih =>
    simp only [List.map_cons, List.mem_cons, not_or] at h
    have h1 : updOne u it = it := by
      unfold updOne
      rw [if_neg]
      simp [h.1]
    show patchAll (updOne u it) rest = it
    rw [h1]
    exact ih h.2

theorem patchAll_get (upds : List (String × Patch))
    (hnd : (upds.map (fun u => u.1)).Nodup) (i : Nat) (hi : i < upds.length)
    (it : Item) (hid : it.id = (upds.get ⟨i, hi⟩).1) :
    patchAll it upds = applyPatch (upds.get ⟨i, hi⟩).2 it := by
  induction upds generalizing it i with
  | nil => exact absurd hi (by simp)
  | cons u rest ih =>
    rw [List.map_cons, List.nodup_cons] at hnd
    cases i with
    | zero =>
      have h1 : updOne u it = applyPatch u.2 it := by
        unfold updOne
        rw [if_pos]
        simp [hid]
      show patchAll (updOne u it) rest = applyPatch u.2 it
      rw [h1]
      apply patchAll_of_not_mem
      rw [applyPatch_id]
      rw [hid]
      exact hnd.1
    | succ j =>
      have hj : j < rest.length := Nat.lt_of_succ_lt_succ hi
      have hmem : (rest.get ⟨j, hj⟩).1 ∈ rest.map (fun u => u.1) :=
        List.mem_map_of_mem _ (rest.get_mem _ _)
      have hne : it.id ≠ u.1 := by
        intro hEq
        exact hnd.1 (by rw [← hEq, hid]; exact hmem)
      have h1 : updOne u it = it := by
        unfold updOne
        rw [if_neg]
        simp [hne]
      show patchAll (updOne u it) rest = _
      rw [h1]
      exact ih hnd.2 j hj it hid

theorem commit_of_applyWrites (s s2 : List Item) (ws : List Write)
    (h : applyWrites s ws = some s2) : commit s ws = s2 := by
  unfold commit
  rw [h]

theorem createChildItem_eq_of_missing (s : List Item) (parentId title : String)
    (clientId : Option String) (newId : String) (maxDepth : Nat)
    (h : getDocById s parentId = none) :
    createChildItem s parentId title clientId newId maxDepth = (s, none) := by
  simp only [createChildItem, h]

theorem createChildItem_eq_of_deep (s : List Item) (parentId title : String)
    (clientId : Option String) (newId : String) (maxDepth : Nat) (p : Item)
    (hp : getDocById s parentId = some p) (hd : maxDepth < p.path.length + 2) :
    createChildItem s parentId title clientId newId maxDepth = (s, none) := by
  simp only [createChildItem, hp]
  rw [if_pos hd]

/-- C4: for an existing parent whose depth admits a child,
`createChildItem` appends exactly one new task, with
`path = parent.path ++ [parent.id]`, `parentId = parent.id`,
`listId = parent.listId`, `completed = false`, `collapsed = false`, and
order equal to the number of the parent's existing children in its list. -/
theorem createChildItem_inserts_child (s : List Item) (parentId title : String)
    (clientId : Option String) (newId : String) (maxDepth : Nat) (p : Item)
    (hp : getDocById s parentId = some p) (hd : p.path.length + 2 ≤ maxDepth) :
    createChildItem s parentId title clientId newId maxDepth =
      (s ++ [{ id := newId, title := title, completed := false, collapsed := false,
               listId := p.listId, parentId := some p.id,
               path := p.path ++ [p.id],
               order := ((siblingsOf s p.listId (some p.id)).length : Int),
               clientId := clientId }], some newId) := by
  simp only [createChildItem, hp]
  rw [if_neg (by omega)]

/-- C3: `createChildItem` returns a null result if and only if the parent
does not exist or the child depth `parent.path.length + 2` would exceed
`maxDepth`, and in that case the store is returned completely unchanged
(no orphaned insert). -/
theorem createChildItem_reject_iff (s : List Item) (parentId title : String)
    (clientId : Option String) (newId : String) (maxDepth : Nat) :
    ((createChildItem s parentId title clientId newId maxDepth).2 = none ↔
      getDocById s parentId = none ∨
        ∃ p, getDocById s parentId = some p ∧ maxDepth < p.path.length + 2) ∧
    ((createChildItem s parentId title clientId newId maxDepth).2 = none →
      (createChildItem s parentId title clientId newId maxDepth).1 = s) := by
  cases h : getDocById s parentId with
  | none =>
    rw [createChildItem_eq_of_missing s parentId title clientId newId maxDepth h]
    exact ⟨⟨fun _ => Or.inl rfl, fun _ => rfl⟩, fun _ => rfl⟩
  | some p =>
    by_cases hd : maxDepth < p.path.length + 2
    · rw [createChildItem_eq_of_deep s parentId title clientId newId maxDepth p h hd]
      exact ⟨⟨fun _ => Or.inr ⟨p, rfl, hd⟩, fun _ => rfl⟩, fun _ => rfl⟩
    · rw [createChildItem_inserts_child s parentId title clientId newId maxDepth p h
        (by omega)]
      constructor
      · constructor
        · intro hno
          exact absurd hno (by simp)
        · rintro (hcase | ⟨q, hq, hdq⟩)
          · exact absurd hcase (by simp)
          · injection hq with hq
            subst hq
            omega
      · intro hno
        exact absurd hno (by simp)

/-- Witness for C4 (Scenario D): a parent with 2 existing children; the
created child gets order 2 and path `parent.path ++ [parent.id]`. -/
theorem createChildItem_inserts_child_witness :
    createChildItem storeParent2 "par" "t" none "new" 4 =
      (storeParent2 ++
        [{ id := "new", title := "t", completed := false, collapsed := false,
           listId := itemPar.listId, parentId := some itemPar.id,
           path := itemPar.path ++ [itemPar.id],
           order := ((siblingsOf storeParent2 itemPar.listId (some itemPar.id)).length : Int),
           clientId := none }], some "new") ∧
    (siblingsOf storeParent2 itemPar.listId (some itemPar.id)).length = 2 := by
  constructor
  · exact createChildItem_inserts_child storeParent2 "par" "t" none "new" 4 itemPar
      (by decide) (by decide)
  · decide

/-- C10: the result of `reorderSiblings` depends only on the prior store
and `orderedIds`: the `listId` and `parentId` arguments never influence
the outcome.  Moreover (for a duplicate-free id list whose members all
exist) every listed document gets its index as its new order and every
unlisted document is untouched. -/
theorem reorderSiblings_container_independent (s : List Item)
    (listId1 listId2 : String) (parentId1 parentId2 : Option String)
    (orderedIds : List String) :
    reorderSiblings s listId1 parentId1 orderedIds =
      reorderSiblings s listId2 parentId2 orderedIds ∧
    (orderedIds.Nodup → (∀ i ∈ orderedIds, i ∈ idsOf s) →
      idsOf (reorderSiblings s listId1 parentId1 orderedIds) = idsOf s ∧
      (∀ it ∈ s, it.id ∉ orderedIds →
        it ∈ reorderSiblings s listId1 parentId1 orderedIds) ∧
      (∀ it ∈ s, ∀ i, ∀ h : i < orderedIds.length, orderedIds.get ⟨i, h⟩ = it.id →
        { it with order := (i : Int) } ∈ reorderSiblings s listId1 parentId1 orderedIds)) := by
  refine ⟨rfl, fun hnd hex => ?_⟩
  obtain ⟨upds, hupds⟩ : ∃ u : List (String × Patch),
      u = orderedIds.enum.map (fun pr => (pr.2, ({ order := some (pr.1 : Int) } : Patch))) :=
    ⟨_, rfl⟩
  have hfst : upds.map (fun u => u.1) = orderedIds := by
    rw [hupds, List.map_map]
    exact List.enumFrom_map_snd 0 orderedIds
  have hex2 : ∀ u ∈ upds, u.1 ∈ idsOf s := by
    intro u hu
    have hm : u.1 ∈ upds.map (fun u => u.1) := List.mem_map_of_mem _ hu
    rw [hfst] at hm
    exact hex u.1 hm
  have hw : reorderSiblings s listId1 parentId1 orderedIds = applyUpds s upds := by
    unfold reorderSiblings
    apply commit_of_applyWrites
    have hmm : orderedIds.enum.map (fun pr => Write.upd pr.2 { order := some (pr.1 : Int) }) =
        upds.map (fun u => Write.upd u.1 u.2) := by
      rw [hupds, List.map_map]
      rfl
    rw [hmm]
    exact applyWrites_upds upds s hex2
  rw [hw, applyUpds_eq_map upds s]
  refine ⟨?_, ?_, ?_⟩
  · unfold idsOf
    rw [List.map_map]
    apply List.map_congr_left
    intro a _
    exact patchAll_id a upds
  · intro it hit hnotin
    have heq : patchAll it upds = it := by
      apply patchAll_of_not_mem
      rw [hfst]
      exact hnotin
    have hmem : patchAll it upds ∈ s.map (fun a => patchAll a upds) :=
      List.mem_map_of_mem _ hit
    rw [heq] at hmem
    exact hmem
  · intro it hit i h hgi
    have hlen : i < upds.length := by
      rw [hupds]
      simpa using h
    have hget : upds.get ⟨i, hlen⟩ =
        (orderedIds.get ⟨i, h⟩, ({ order := some (i : Int) } : Patch)) := by
      subst hupds
      simp [List.enum, List.get_eq_getElem]
    have hnd2 : (upds.map (fun u => u.1)).Nodup := by
      rw [hfst]
      exact hnd
    have hp : patchAll it upds = applyPatch { order := some (i : Int) } it := by
      rw [patchAll_get upds hnd2 i hlen it (by rw [hget]; exact hgi.symm), hget]
    have hmem : patchAll it upds ∈ s.map (fun a => patchAll a upds) :=
      List.mem_map_of_mem _ hit
    rw [hp] at hmem
    exact hmem

/-- Witness for C10 (also Scenario A): on `storeTwoRoots`, reordering with
the reversed id list gives the same store for two different
listId/parentId arguments, ids are preserved, and each listed task gets
its index as order. -/
theorem reorderSiblings_container_independent_witness :
    reorderSiblings storeTwoRoots "L1" none ["b", "a"] =
      reorderSiblings storeTwoRoots "ZZ" (some "w") ["b", "a"] ∧
    idsOf (reorderSiblings storeTwoRoots "L1" none ["b", "a"]) = idsOf storeTwoRoots ∧
    { itemA2 with order := (1 : Int) } ∈ reorderSiblings storeTwoRoots "L1" none ["b", "a"] ∧
    { itemB2 with order := (0 : Int) } ∈ reorderSiblings storeTwoRoots "L1" none ["b", "a"] := by
  have h := reorderSiblings_container_independent storeTwoRoots "L1" "ZZ" none (some "w")
    ["b", "a"]
  have h2 := h.2 (by decide) (by decide)
  refine ⟨h.1, h2.1, ?_, ?_⟩
  · exact h2.2.2 itemA2 (by decide) 1 (by decide) (by decide)
  · exact h2.2.2 itemB2 (by decide) 0 (by decide) (by decide)

theorem contains_eq_true_iff (l : List String) (a : String) :
    l.contains a = true ↔ a ∈ l := List.elem_iff

/-- C7: `deleteList` removes the list document and exactly the tasks whose
`listId` matches; every task of any other list survives byte-for-byte (the
surviving item list is literally the filter of the original). -/
theorem deleteList_spec (lists : List ListDoc) (items : List Item) (listId : String)
    (h : (items.map (fun it => it.id)).Nodup) :
    (deleteList lists items listId).1 = lists.filter (fun l => l.id != listId) ∧
    (deleteList lists items listId).2 = items.filter (fun it => it.listId != listId) := by
  refine ⟨rfl, ?_⟩
  show commit items
    ((items.filter (fun it => it.listId == listId)).map (fun d => Write.del d.id)) = _
  have hmm : (items.filter (fun it => it.listId == listId)).map (fun d => Write.del d.id) =
      ((items.filter (fun it => it.listId == listId)).map (fun d => d.id)).map Write.del := by
    rw [List.map_map]
    rfl
  rw [hmm]
  rw [commit_of_applyWrites _ _ _ (applyWrites_dels _ items)]
  apply List.filter_congr
  intro it hit
  cases hbe : it.listId == listId with
  | true =>
    have hmem : it.id ∈ (items.filter (fun x => x.listId == listId)).map (fun d => d.id) :=
      List.mem_map_of_mem _ (List.mem_filter.mpr ⟨hit, hbe⟩)
    have hc : ((items.filter (fun x => x.listId == listId)).map (fun d => d.id)).contains it.id
        = true := (contains_eq_true_iff _ _).mpr hmem
    rw [hc]
    show (!true) = !(it.listId == listId)
    rw [hbe]
  | false =>
    have hnotmem : it.id ∉ (items.filter (fun x => x.listId == listId)).map (fun d => d.id) := by
      intro hmem
      obtain ⟨d, hd, hdid⟩ := List.mem_map.mp hmem
      have hdin := List.mem_filter.mp hd
      have hde : d = it := List.inj_on_of_nodup_map h hdin.1 hit hdid
      rw [hde] at hdin
      rw [hbe] at hdin
      exact absurd hdin.2 (by simp)
    have hc : ((items.filter (fun x => x.listId == listId)).map (fun d => d.id)).contains it.id
        = false := by
      cases hc2 : ((items.filter (fun x => x.listId == listId)).map (fun d => d.id)).contains
        it.id with
      | false => rfl
      | true => exact absurd ((contains_eq_true_iff _ _).mp hc2) hnotmem
    rw [hc]
    show (!false) = !(it.listId == listId)
    rw [hbe]

/-- Witness for C7 (Scenario E): list "LX" has exactly 5 referencing
tasks; deleting it removes the list document and those 5 tasks and leaves
the tasks of list "LY" untouched. -/
theorem deleteList_spec_witness :
    (itemsCascade.filter (fun it => it.listId == "LX")).length = 5 ∧
    (deleteList [listLX, listLY] itemsCascade "LX").1 =
      ([listLX, listLY].filter (fun l => l.id != "LX")) ∧
    (deleteList [listLX, listLY] itemsCascade "LX").2 =
      (itemsCascade.filter (fun it => it.listId != "LX")) := by
  have h := deleteList_spec [listLX, listLY] itemsCascade "LX" (by decide)
  exact ⟨by decide, h.1, h.2⟩

theorem max?_of_perm_range (l : List Int) (n : Nat) (hn : 0 < n)
    (h : l.Perm (natsTo n)) : l.max? = some ((n : Int) - 1) := by
  have anti : Std.Antisymm ((· : Int) ≤ ·) := ⟨fun h1 h2 => Int.le_antisymm h1 h2⟩
  rw [List.max?_eq_some_iff (fun a => Int.le_refl a) (fun a b => max_choice a b)
    (fun a b c => max_le_iff)]
  constructor
  · rw [h.mem_iff]
    unfold natsTo
    rw [List.mem_map]
    refine ⟨n - 1, List.mem_range.mpr (by omega), ?_⟩
    omega
  · intro b hb
    have hb2 := h.mem_iff.mp hb
    unfold natsTo at hb2
    obtain ⟨k, hk, hkb⟩ := List.mem_map.mp hb2
    have hkn := List.mem_range.mp hk
    omega

/-- C9: when the user's lists have dense zero-based ranks, the hook-level
`createList` (which passes `Math.max(orders) + 1`, or 0 for no lists, to
the service) inserts the new list at rank = the number of lists the user
already owns, and afterwards the ranks are again exactly 0..n with no
duplicates. -/
theorem useLists_createList_dense (ls : List ListDoc) (title : String)
    (clientId : Option String) (newId : String)
    (h : (ls.map (fun l => l.order)).Perm (natsTo ls.length)) :
    useLists_createOrder ls = (ls.length : Int) ∧
    ((useLists_createList ls title clientId newId).map (fun l => l.order)).Perm
      (natsTo (ls.length + 1)) := by
  by_cases hn : ls.length = 0
  · have hnil : ls = [] := List.length_eq_zero.mp hn
    subst hnil
    exact ⟨rfl, List.Perm.refl _⟩
  · have hn' : 0 < ls.length := Nat.pos_of_ne_zero hn
    have hmax := max?_of_perm_range _ _ hn' h
    have horder : useLists_createOrder ls = (ls.length : Int) := by
      simp only [useLists_createOrder, hmax]
      omega
    refine ⟨horder, ?_⟩
    have hmap : (useLists_createList ls title clientId newId).map (fun l => l.order) =
        ls.map (fun l => l.order) ++ [useLists_createOrder ls] := by
      unfold useLists_createList createList
      rw [List.map_append]
      rfl
    have hr : natsTo (ls.length + 1) = natsTo ls.length ++ [(ls.length : Int)] := by
      unfold natsTo
      rw [List.range_succ, List.map_append]
      rfl
    rw [hmap, horder, hr]
    exact List.Perm.append h (List.Perm.refl _)

/-- Witness for C9: three lists with dense (permuted) ranks 1, 0, 2; the
new list gets rank 3 and the ranks remain dense. -/
theorem useLists_createList_dense_witness :
    useLists_createOrder listsDense = (3 : Int) ∧
    ((useLists_createList listsDense "D" none "l4").map (fun l => l.order)).Perm
      (natsTo 4) := by
  have h := useLists_createList_dense listsDense "D" none "l4" (by decide)
  exact ⟨h.1, h.2⟩

theorem mem_siblingsOf {s : List Item} {lid : String} {pid : Option String} {x : Item} :
    x ∈ siblingsOf s lid pid ↔ x ∈ s ∧ x.listId = lid ∧ x.parentId = pid := by
  unfold siblingsOf
  rw [List.mem_filter, Bool.and_eq_true]
  constructor
  · rintro ⟨h1, h2, h3⟩
    exact ⟨h1, by simpa using h2, by simpa using h3⟩
  · rintro ⟨h1, h2, h3⟩
    exact ⟨h1, by simpa using h2, by simpa using h3⟩

/-- Under the data-model invariants, a task sharing the moved root's
parent does not have the root on its ancestor chain. -/
theorem sibling_not_descendant (s : List Item) (hinv : Invariants s)
    (root : Item) (hroot : root ∈ s) (x : Item) (hx : x ∈ s)
    (hp : x.parentId = root.parentId) : root.id ∉ x.path := by
  obtain ⟨hnd, hacyc, hre, hpe, hpc⟩ := hinv
  cases hrp : root.parentId with
  | none =>
    have hxn : x.parentId = none := by rw [hp, hrp]
    rw [hre x hx hxn]
    simp
  | some pid =>
    have hxp : x.parentId = some pid := by rw [hp, hrp]
    rcases hpe root hroot with h0 | ⟨p, hpmem, hpid⟩
    · rw [h0] at hrp
      exact absurd hrp (by simp)
    · rw [hrp] at hpid
      injection hpid with hpid
      have hxpath : x.path = p.path ++ [p.id] := hpc x hx p hpmem (by rw [hxp, hpid])
      have hrpath : root.path = p.path ++ [p.id] := hpc root hroot p hpmem (by
        rw [hrp, hpid])
      rw [hxpath, ← hrpath]
      exact hacyc root hroot

/-- C6: for an existing task, `deleteItemSubtree` removes exactly the task
and every task whose `path` contains its id; every other task survives;
survivors outside the deleted task's sibling group are untouched, and the
surviving members of that sibling group, in their previous rank order,
receive orders 0..n-1.  For a missing id the store is unchanged. -/
theorem deleteItemSubtree_spec (s : List Item) (tid : String) (hinv : Invariants s) :
    (getDocById s tid = none → deleteItemSubtree s tid = s) ∧
    (∀ root, getDocById s tid = some root →
      idsOf (deleteItemSubtree s tid) =
        idsOf (s.filter (fun it => !(it.id == tid) && !(it.path.contains tid))) ∧
      (∀ it ∈ s, it.id ≠ tid → tid ∉ it.path →
        ¬(it.listId = root.listId ∧ it.parentId = root.parentId) →
        it ∈ deleteItemSubtree s tid) ∧
      (∀ i, ∀ hi : i < (sortByOrder ((siblingsOf s root.listId root.parentId).filter
          (fun d => d.id != root.id))).length,
        { (sortByOrder ((siblingsOf s root.listId root.parentId).filter
            (fun d => d.id != root.id))).get ⟨i, hi⟩ with order := (i : Int) }
          ∈ deleteItemSubtree s tid)) := by
  have hnd : (s.map (fun it => it.id)).Nodup := hinv.1
  constructor
  · intro h
    simp only [deleteItemSubtree, h]
  intro root hroot
  have hrmem : root ∈ s := List.mem_of_find?_eq_some hroot
  have hrid : root.id = tid := by
    have := List.find?_some hroot
    simpa using this
  obtain ⟨sibs, hsibs⟩ : ∃ x, x = sortByOrder
      ((siblingsOf s root.listId root.parentId).filter (fun d => d.id != root.id)) :=
    ⟨_, rfl⟩
  obtain ⟨dids, hdids⟩ : ∃ x : List String,
      x = (s.filter (fun it => it.path.contains tid)).map (fun d => d.id) ++ [root.id] :=
    ⟨_, rfl⟩
  obtain ⟨upds, hupds⟩ : ∃ x : List (String × Patch),
      x = sibs.enum.map (fun pr => (pr.2.id, ({ order := some (pr.1 : Int) } : Patch))) :=
    ⟨_, rfl⟩
  obtain ⟨mid, hmid⟩ : ∃ x, x = s.filter (fun it => !(dids.contains it.id)) := ⟨_, rfl⟩
  -- membership facts about sibs
  have hsibs_sub : ∀ x ∈ sibs,
      x ∈ s ∧ x.listId = root.listId ∧ x.parentId = root.parentId ∧ x.id ≠ root.id := by
    intro x hx
    rw [hsibs] at hx
    have hx2 : x ∈ (siblingsOf s root.listId root.parentId).filter
        (fun d => d.id != root.id) := (List.perm_insertionSort _ _).mem_iff.mp hx
    have hx3 := List.mem_filter.mp hx2
    have hx4 := mem_siblingsOf.mp hx3.1
    refine ⟨hx4.1, hx4.2.1, hx4.2.2, ?_⟩
    have := hx3.2
    simpa using this
  -- sibs survive the deletions
  have hsib_surv : ∀ x ∈ sibs, (dids.contains x.id) = false := by
    intro x hx
    obtain ⟨hxs, hxl, hxp, hxne⟩ := hsibs_sub x hx
    cases hc : dids.contains x.id with
    | false => rfl
    | true =>
      exfalso
      have hmem := (contains_eq_true_iff _ _).mp hc
      rw [hdids] at hmem
      rcases List.mem_append.mp hmem with hl | hr
      · obtain ⟨d, hd, hdid⟩ := List.mem_map.mp hl
        have hdf := List.mem_filter.mp hd
        have hde : d = x := List.inj_on_of_nodup_map hnd hdf.1 hxs hdid
        have hnotdesc : root.id ∉ x.path :=
          sibling_not_descendant s hinv root hrmem x hxs hxp
        rw [hde] at hdf
        rw [hrid] at hnotdesc
        exact hnotdesc ((contains_eq_true_iff _ _).mp hdf.2)
      · have : x.id = root.id := by simpa using hr
        exact hxne this
  have hsib_mid : ∀ x ∈ sibs, x ∈ mid := by
    intro x hx
    rw [hmid, List.mem_filter]
    refine ⟨(hsibs_sub x hx).1, ?_⟩
    rw [hsib_surv x hx]
    rfl
  -- the batch of the operation, in dels ++ upds form
  have hdel : deleteItemSubtree s tid = commit s
      ((s.filter (fun it => it.path.contains tid)).map (fun d => Write.del d.id)
        ++ [Write.del root.id]
        ++ (sortByOrder ((siblingsOf s root.listId root.parentId).filter
            (fun d => d.id != root.id))).enum.map
          (fun pr => Write.upd pr.2.id { order := some (pr.1 : Int) })) := by
    simp only [deleteItemSubtree, hroot]
  have hwrites : (s.filter (fun it => it.path.contains tid)).map (fun d => Write.del d.id)
      ++ [Write.del root.id]
      ++ (sortByOrder ((siblingsOf s root.listId root.parentId).filter
          (fun d => d.id != root.id))).enum.map
        (fun pr => Write.upd pr.2.id { order := some (pr.1 : Int) }) =
      dids.map Write.del ++ upds.map (fun u => Write.upd u.1 u.2) := by
    rw [hdids, hupds, ← hsibs, List.map_append, List.map_map, List.map_map]
    rfl
  -- targets of the updates exist in the intermediate store
  have hex2 : ∀ u ∈ upds, u.1 ∈ idsOf mid := by
    intro u hu
    rw [hupds] at hu
    obtain ⟨pr, hpr, hpru⟩ := List.mem_map.mp hu
    have hprs : pr.2 ∈ sibs := by
      have h1 : pr.2 ∈ sibs.enum.map Prod.snd := List.mem_map_of_mem _ hpr
      have h2 : sibs.enum.map Prod.snd = sibs := List.enumFrom_map_snd 0 sibs
      rw [h2] at h1
      exact h1
    have := hsib_mid pr.2 hprs
    rw [← hpru]
    exact List.mem_map_of_mem _ this
  have hrun : deleteItemSubtree s tid = mid.map (fun a => patchAll a upds) := by
    rw [hdel, hwrites]
    have hcommit : applyWrites s
        (dids.map Write.del ++ upds.map (fun u => Write.upd u.1 u.2)) =
        some (applyUpds mid upds) := by
      rw [applyWrites_append, applyWrites_dels, Option.some_bind, ← hmid]
      exact applyWrites_upds upds mid hex2
    rw [commit_of_applyWrites _ _ _ hcommit]
    rw [applyUpds_eq_map]
  -- the intermediate store is exactly the claimed surviving set
  have hmid2 : mid = s.filter (fun it => !(it.id == tid) && !(it.path.contains tid)) := by
    rw [hmid]
    apply List.filter_congr
    intro it hit
    show (!(dids.contains it.id)) = (!(it.id == tid) && !(it.path.contains tid))
    cases h1 : it.id == tid with
    | true =>
      have hidt : it.id = tid := by simpa using h1
      have hc : dids.contains it.id = true := by
        apply (contains_eq_true_iff _ _).mpr
        rw [hdids]
        apply List.mem_append.mpr
        right
        simp [hidt, hrid]
      rw [hc]
      rfl
    | false =>
      cases h2 : it.path.contains tid with
      | true =>
        have hc : dids.contains it.id = true := by
          apply (contains_eq_true_iff _ _).mpr
          rw [hdids]
          apply List.mem_append.mpr
          left
          exact List.mem_map_of_mem _ (List.mem_filter.mpr ⟨hit, h2⟩)
        rw [hc]
        rfl
      | false =>
        have hc : dids.contains it.id = false := by
          cases hc2 : dids.contains it.id with
          | false => rfl
          | true =>
            exfalso
            have hmem := (contains_eq_true_iff _ _).mp hc2
            rw [hdids] at hmem
            rcases List.mem_append.mp hmem with hl | hr
            · obtain ⟨d, hd, hdid⟩ := List.mem_map.mp hl
              have hdf := List.mem_filter.mp hd
              have hde : d = it := List.inj_on_of_nodup_map hnd hdf.1 hit hdid
              rw [hde, h2] at hdf
              exact absurd hdf.2 (by simp)
            · have hidr : it.id = root.id := by simpa using hr
              rw [hrid] at hidr
              simp [hidr] at h1
        rw [hc]
        rfl
  -- ids of the updates are the ids of sibs
  have hufst : upds.map (fun u => u.1) = sibs.map (fun x => x.id) := by
    rw [hupds, List.map_map]
    have hcomp : sibs.enum.map ((fun u : String × Patch => u.1) ∘
        (fun pr : Nat × Item => (pr.2.id, ({ order := some (pr.1 : Int) } : Patch)))) =
        (sibs.enum.map Prod.snd).map (fun x => x.id) := by
      rw [List.map_map]
      rfl
    have hsnd : sibs.enum.map Prod.snd = sibs := List.enumFrom_map_snd 0 sibs
    rw [hcomp, hsnd]
  have hsibs_nd : (sibs.map (fun x => x.id)).Nodup := by
    have hsub : List.Sublist
        ((siblingsOf s root.listId root.parentId).filter (fun d => d.id != root.id)) s := by
      apply List.Sublist.trans (List.filter_sublist _)
      unfold siblingsOf
      exact List.filter_sublist _
    have hnd2 : (((siblingsOf s root.listId root.parentId).filter
        (fun d => d.id != root.id)).map (fun x => x.id)).Nodup :=
      List.Nodup.sublist (hsub.map (fun x => x.id)) hnd
    have hperm : (sibs.map (fun x => x.id)).Perm
        (((siblingsOf s root.listId root.parentId).filter
          (fun d => d.id != root.id)).map (fun x => x.id)) := by
      rw [hsibs]
      exact (List.perm_insertionSort _ _).map _
    exact hperm.nodup_iff.mpr hnd2
  refine ⟨?_, ?_, ?_⟩
  · -- cascade completeness: surviving ids are exactly the claimed filter's ids
    rw [hrun, ← hmid2]
    unfold idsOf
    rw [List.map_map]
    apply List.map_congr_left
    intro a _
    exact patchAll_id a upds
  · -- survivors outside the sibling group are untouched
    intro it hit hne hnp hng
    have hitmid : it ∈ mid := by
      rw [hmid2, List.mem_filter]
      refine ⟨hit, ?_⟩
      have h1 : (it.id == tid) = false := by
        cases hb : it.id == tid with
        | false => rfl
        | true => exact absurd (by simpa using hb) hne
      have h2 : (it.path.contains tid) = false := by
        cases hb : it.path.contains tid with
        | false => rfl
        | true => exact absurd ((contains_eq_true_iff _ _).mp hb) hnp
      rw [h1, h2]
      rfl
    have hpatch : patchAll it upds = it := by
      apply patchAll_of_not_mem
      rw [hufst]
      intro hmem
      obtain ⟨sb, hsb, hsbid⟩ := List.mem_map.mp hmem
      obtain ⟨hsbs, hsbl, hsbp, _⟩ := hsibs_sub sb hsb
      have : sb = it := List.inj_on_of_nodup_map hnd hsbs hit hsbid
      rw [this] at hsbl hsbp
      exact hng ⟨hsbl, hsbp⟩
    have hmem2 : patchAll it upds ∈ mid.map (fun a => patchAll a upds) :=
      List.mem_map_of_mem _ hitmid
    rw [hpatch] at hmem2
    rw [hrun]
    exact hmem2
  · -- the surviving sibling group gets orders 0..n-1 in previous order
    intro i hi0
    have hi : i < sibs.length := by
      rw [hsibs]
      exact hi0
    have hsb : sibs.get ⟨i, hi⟩ ∈ sibs := List.get_mem sibs i hi
    have hlen : i < upds.length := by
      rw [hupds]
      simpa using hi
    have hget : upds.get ⟨i, hlen⟩ =
        ((sibs.get ⟨i, hi⟩).id, ({ order := some (i : Int) } : Patch)) := by
      subst hupds
      simp [List.enum, List.get_eq_getElem]
    have hufst_nd : (upds.map (fun u => u.1)).Nodup := by
      rw [hufst]
      exact hsibs_nd
    have hpatch : patchAll (sibs.get ⟨i, hi⟩) upds =
        applyPatch { order := some (i : Int) } (sibs.get ⟨i, hi⟩) := by
      rw [patchAll_get upds hufst_nd i hlen _ (by rw [hget]), hget]
    have hmem2 : patchAll (sibs.get ⟨i, hi⟩) upds ∈ mid.map (fun a => patchAll a upds) :=
      List.mem_map_of_mem _ (hsib_mid _ hsb)
    rw [hpatch] at hmem2
    rw [hrun]
    have hgets : (sortByOrder ((siblingsOf s root.listId root.parentId).filter
        (fun d => d.id != root.id))).get ⟨i, hi0⟩ = sibs.get ⟨i, hi⟩ := by
      subst hsibs
      rfl
    rw [hgets]
    exact hmem2

/-- Witness for C6 (Scenario C): deleting "w2" (rank 1 of four roots, with
one child) removes it and its child, keeps everything else, and the
remaining three roots get orders 0, 1, 2 in their previous order; in
particular "w3" (previously rank 2) now has order 1. -/
theorem deleteItemSubtree_spec_witness :
    Invariants storeDel ∧
    idsOf (deleteItemSubtree storeDel "w2") =
      idsOf (storeDel.filter (fun it => !(it.id == "w2") && !(it.path.contains "w2"))) ∧
    { (sortByOrder ((siblingsOf storeDel itemW2.listId itemW2.parentId).filter
        (fun d => d.id != itemW2.id))).get ⟨1, by decide⟩ with order := (1 : Int) }
      ∈ deleteItemSubtree storeDel "w2" := by
  have h := (deleteItemSubtree_spec storeDel "w2" (by decide)).2 itemW2 (by decide)
  exact ⟨by decide, h.1, h.2.2 1 (by decide)⟩

/-- Witness for C3: on `storeParent2`, creating a child of the missing
parent "zz" is rejected with the store unchanged. -/
theorem createChildItem_reject_iff_witness :
    (createChildItem storeParent2 "zz" "t" none "new" 4).2 = none ∧
    (createChildItem storeParent2 "zz" "t" none "new" 4).1 = storeParent2 := by
  have h := createChildItem_reject_iff storeParent2 "zz" "t" none "new" 4
  have h2 : (createChildItem storeParent2 "zz" "t" none "new" 4).2 = none :=
    h.1.mpr (Or.inl (by decide))
  exact ⟨h2, h.2 h2⟩

end Todo
